import Mathlib

/-!
Verification development for `clustering_allele_variants.py` (SRSTx_supplements).

Strings are modelled as `List Char`.  The Python text primitives used by the
script (`str.rstrip`, `str.strip`, `str.split`, `str.join`, file-line
iteration and the two `re.findall` extractions) are embedded as executable
Lean functions, and the three script functions `get_alleleID`,
`read_clusters` and `assign_clusterIDs` are translated on top of them.
The `collections.defaultdict(dict)` used for the cluster index is modelled
as an association list together with an explicit get-or-create operation
`ddGet`, so that the mutation performed by a `defaultdict` access is
visible in the model.
-/

abbrev Str := List Char

/-- Prepend a character to the first chunk of a chunk list (used by the
splitting functions; an empty chunk list yields a single one-character chunk). -/
def consHead (c : Char) : List Str → List Str
  | [] => [[c]]
  | h :: t => (c :: h) :: t

/-- Python `s.split(sep)` for a single-character separator `sep`
(splits on every occurrence; adjacent separators give empty chunks;
`"".split(sep) = [""]`). -/
def splitOn1 (sep : Char) : Str → List Str
  | [] => [[]]
  | c :: rest =>
    if c = sep then [] :: splitOn1 sep rest
    else consHead c (splitOn1 sep rest)

/-- Python `s.split("__")`: split on every non-overlapping occurrence of the
two-character separator `"__"`, scanning left to right. -/
def splitDD : Str → List Str
  | [] => [[]]
  | [c] => [[c]]
  | c₁ :: c₂ :: rest =>
    if c₁ = '_' ∧ c₂ = '_' then [] :: splitDD rest
    else consHead c₁ (splitDD (c₂ :: rest))

/-- Python `sep.join(chunks)`. -/
def joinWith (sep : Str) : List Str → Str
  | [] => []
  | [x] => x
  | x :: y :: t => x ++ sep ++ joinWith sep (y :: t)

/-- Python `s.rstrip(c)` for a single stripped character: remove every
trailing occurrence of `c`. -/
def pyRstrip (c : Char) (s : Str) : Str :=
  (s.reverse.dropWhile (· = c)).reverse

/-- Python `s.strip(c)` for a single stripped character: remove every leading
and trailing occurrence of `c`. -/
def pyStrip (c : Char) (s : Str) : Str :=
  (pyRstrip c s).dropWhile (· = c)

/-- Python file-line iteration (also `readlines`): cut the content after every
newline character, keeping the newline at the end of each line; a final
segment without a newline is kept, and no empty final segment is produced
for content ending in a newline. -/
def pyLines : Str → List Str
  | [] => []
  | c :: rest =>
    if c = '\n' then ['\n'] :: pyLines rest
    else consHead c (pyLines rest)

/-- `line.split(" ")[-1]`: the last chunk after splitting on the space
character (the chunk list is never empty, so the default is unreachable). -/
def lastTok (line : Str) : Str :=
  (splitOn1 ' ' line).getLastD []

/-- `get_alleleID` from the source: `"_".join(id.split("__")[-2:])`. -/
def get_alleleID (id : Str) : Str :=
  let fields := splitDD id
  joinWith ['_'] (fields.drop (fields.length - 2))

/-- Index of the first occurrence of `pat` in `s` (`none` if absent). -/
def findOcc (pat : Str) : Str → Option Nat
  | [] => if pat = [] then some 0 else none
  | s@(_ :: rest) =>
    if pat.isPrefixOf s then some 0
    else (findOcc pat rest).map (· + 1)

/-- First match of the regular expression `o(.+?)pat` in `s` (with `o` a
literal character and `pat` a literal string), returning the non-greedy
capture: the text between the first `o` that is followed, at distance at
least one, by an occurrence of `pat`, and the earliest such occurrence.
This embeds the two `re.findall(...)[0]` extractions of the source. -/
def reExtract (o : Char) (pat : Str) : Str → Option Str
  | [] => none
  | x :: rest =>
    if x = o then
      match rest with
      | [] => none
      | y :: rest2 =>
        match findOcc pat rest2 with
        | some p => some (y :: rest2.take p)
        | none => none
    else reExtract o pat rest

/-- Failure modes of `read_clusters`: the two `re.findall(...)[0]` index
errors on a non-matching member line, and the `NameError` raise when a
member line precedes every header line (`cluster_id` unbound). -/
inductive RCErr where
  | noSeqId
  | noSampleId
  | noCluster
deriving DecidableEq

/-- Parse a member line of the cluster report, as the source does:
extract the sequence identifier framed by `>` and `.consensus`, convert it
with `get_alleleID`, and extract the sample framed by `|` and `...`. -/
def parseMember (line : Str) : Except RCErr (Str × Str) :=
  match reExtract '>' (".consensus".data) line with
  | none => .error .noSeqId
  | some sid =>
    match reExtract '|' ("...".data) line with
    | none => .error .noSampleId
    | some sample => .ok (sample, get_alleleID sid)

/-- The cluster index: `{sample : {allele : cluster_id}}`, as an association
list in insertion order. -/
abbrev Index := List (Str × List (Str × Str))

/-- Python dictionary read `d[k]` as an option. -/
def aGet {α : Type} : List (Str × α) → Str → Option α
  | [], _ => none
  | (k, v) :: rest, key => if k = key then some v else aGet rest key

/-- Python dictionary write `d[k] = v`: update in place, else append. -/
def aSet {α : Type} : List (Str × α) → Str → α → List (Str × α)
  | [], key, v => [(key, v)]
  | (k, w) :: rest, key, v =>
    if k = key then (k, v) :: rest else (k, w) :: aSet rest key v

/-- `defaultdict(dict)` read `clusters[s]`: return the existing inner
dictionary, or insert and return an empty one.  The second component is the
(possibly mutated) outer dictionary. -/
def ddGet (idx : Index) (s : Str) : List (Str × Str) × Index :=
  match aGet idx s with
  | some d => (d, idx)
  | none => ([], aSet idx s [])

/-- Two-level read `clusters[s][a]` without the defaultdict side effect,
used to state lookups. -/
def aGet2 (idx : Index) (s a : Str) : Option Str :=
  match aGet idx s with
  | some d => aGet d a
  | none => none

/-- `clusters[s][a] = v` on the `defaultdict`: get-or-create the inner
dictionary for `s`, then write `a ↦ v` into it. -/
def ddSetIn (idx : Index) (s a v : Str) : Index :=
  let p := ddGet idx s
  aSet p.2 s (aSet p.1 a v)

/-- Loop state of `read_clusters`: the `cluster_id` variable (`none` while
still unbound) and the `clusters` dictionary. -/
structure RCState where
  cur : Option Str
  idx : Index
deriving DecidableEq

/-- One iteration of the `read_clusters` loop on an already
newline-stripped line. -/
def rcStepCore (st : RCState) (line : Str) : Except RCErr RCState :=
  if line.head? = some '>' then
    .ok ⟨some (lastTok line), st.idx⟩
  else
    match parseMember line with
    | .error e => .error e
    | .ok sa =>
      match st.cur with
      | none => .error .noCluster
      | some cid => .ok ⟨some cid, ddSetIn st.idx sa.1 sa.2 cid⟩

/-- One iteration of the `read_clusters` loop on a raw line
(`line = line.strip("\n")` first). -/
def rcStep (st : RCState) (raw : Str) : Except RCErr RCState :=
  rcStepCore st (pyStrip '\n' raw)

/-- The `read_clusters` loop over a list of raw lines. -/
def runRC (st : RCState) : List Str → Except RCErr RCState
  | [] => .ok st
  | l :: ls =>
    match rcStep st l with
    | .error e => .error e
    | .ok st' => runRC st' ls

/-- `read_clusters` from the source: iterate over the lines of the cluster
file content and return the built index. -/
def read_clusters (content : Str) : Except RCErr Index :=
  (runRC ⟨none, []⟩ (pyLines content)).map RCState.idx

/-- Failure modes of `assign_clusterIDs`: `f[0]` on an empty file,
`allele[-1]` on an empty stripped field, and the `KeyError` of
`clusters[sample][allele[:-1]]`. -/
inductive TWErr where
  | emptyTable
  | emptyAllele
  | keyError
deriving DecidableEq

/-- Per-field processing of `assign_clusterIDs`: strip every trailing `?`,
and on a trailing `*` replace the field by the allele name, a period and the
cluster identifier from `clusters[sample][name]`.  The second component is
the cluster index after the `defaultdict` access (mutated exactly when a
variant field is met and `sample` is absent from the index). -/
def procAllele (idx : Index) (sample al : Str) : Except TWErr Str × Index :=
  let a := pyRstrip '?' al
  match a.getLast? with
  | none => (.error .emptyAllele, idx)
  | some c =>
    if c = '*' then
      let p := ddGet idx sample
      match aGet p.1 a.dropLast with
      | none => (.error .keyError, p.2)
      | some cid => (.ok (a.dropLast ++ '.' :: cid), p.2)
    else (.ok a, idx)

/-- Process the allele fields of a row in order, stopping at the first
failure and threading the index through. -/
def procFields (idx : Index) (sample : Str) : List Str → Except TWErr (List Str) × Index
  | [] => (.ok [], idx)
  | al :: rest =>
    match procAllele idx sample al with
    | (.error e, idx') => (.error e, idx')
    | (.ok a, idx') =>
      match procFields idx' sample rest with
      | (.error e, idx'') => (.error e, idx'')
      | (.ok as, idx'') => (.ok (a :: as), idx'')

/-- Process one data row: split on tabs, keep the sample field, rewrite the
allele fields, and rejoin with tabs. -/
def procRow (idx : Index) (raw : Str) : Except TWErr Str × Index :=
  let fields := splitOn1 '\t' (pyRstrip '\n' raw)
  let sample := fields.headD []
  match procFields idx sample fields.tail with
  | (.error e, idx') => (.error e, idx')
  | (.ok as, idx') => (.ok (joinWith ['\t'] (sample :: as)), idx')

/-- Outcome of `assign_clusterIDs`: the lines printed to standard output, an
optional abort cause, and the final state of the cluster index. -/
structure TWResult where
  out : List Str
  err : Option TWErr
  idx : Index
deriving DecidableEq

/-- Process the data rows in order: each successfully rewritten row is
printed before the next row is read; the first failure aborts with the rows
already printed. -/
def procRows (idx : Index) : List Str → TWResult
  | [] => ⟨[], none, idx⟩
  | r :: rs =>
    match procRow idx r with
    | (.error e, idx') => ⟨[], some e, idx'⟩
    | (.ok line, idx') =>
      let t := procRows idx' rs
      ⟨line :: t.out, t.err, t.idx⟩

/-- `assign_clusterIDs` from the source: print the newline-stripped header
line, then process every following row. -/
def assign_clusterIDs (table : Str) (clusters : Index) : TWResult :=
  match pyLines table with
  | [] => ⟨[], some .emptyTable, clusters⟩
  | h :: rows =>
    let t := procRows clusters rows
    ⟨pyStrip '\n' h :: t.out, t.err, t.idx⟩

/-- Does the string contain two consecutive underscores? -/
def hasDD : Str → Bool
  | [] => false
  | [_] => false
  | c₁ :: c₂ :: rest => if c₁ = '_' ∧ c₂ = '_' then true else hasDD (c₂ :: rest)

/-- The update of the "current cluster identifier" performed by one line of
the cluster report: header lines install the last space-separated token of
the stripped line, other lines leave the identifier unchanged. -/
def stepCur (a : Option Str) (l : Str) : Option Str :=
  if (pyStrip '\n' l).head? = some '>' then some (lastTok (pyStrip '\n' l)) else a

/-- The cluster identifier of the most recently seen header line. -/
def lastHeaderId (lines : List Str) : Option Str :=
  lines.foldl stepCur none

instance {ε α : Type} [DecidableEq ε] [DecidableEq α] : DecidableEq (Except ε α) := fun a b =>
  match a, b with
  | .ok x, .ok y =>
    if h : x = y then .isTrue (by rw [h]) else .isFalse (fun hh => h (Except.ok.inj hh))
  | .error x, .error y =>
    if h : x = y then .isTrue (by rw [h]) else .isFalse (fun hh => h (Except.error.inj hh))
  | .ok _, .error _ => .isFalse (fun hh => Except.noConfusion hh)
  | .error _, .ok _ => .isFalse (fun hh => Except.noConfusion hh)


/-! ### Lemmas about splitting and joining -/

lemma consHead_cons (c : Char) (h : Str) (t : List Str) :
    consHead c (h :: t) = (c :: h) :: t := rfl

lemma splitOn1_ne_nil (c : Char) (s : Str) : splitOn1 c s ≠ [] := by
  induction s with
  | nil => simp [splitOn1]
  | cons x rest ih =>
    simp only [splitOn1]
    split
    · simp
    · cases h : splitOn1 c rest with
      | nil => simp [consHead]
      | cons a t => simp [consHead]

lemma joinWith_splitOn1 (c : Char) (s : Str) :
    joinWith [c] (splitOn1 c s) = s := by
  induction s with
  | nil => rfl
  | cons x rest ih =>
    simp only [splitOn1]
    by_cases hx : x = c
    · rw [if_pos hx]
      obtain ⟨h, t, e⟩ := List.exists_cons_of_ne_nil (splitOn1_ne_nil c rest)
      rw [e] at ih ⊢
      show [] ++ [c] ++ joinWith [c] (h :: t) = x :: rest
      simp [hx, ih]
    · rw [if_neg hx]
      obtain ⟨h, t, e⟩ := List.exists_cons_of_ne_nil (splitOn1_ne_nil c rest)
      rw [e] at ih ⊢
      rw [consHead_cons]
      cases t with
      | nil =>
        simp only [joinWith] at ih ⊢
        simp [ih]
      | cons y t' =>
        simp only [joinWith] at ih ⊢
        rw [← ih]
        simp

lemma splitDD_noDD : ∀ s : Str, hasDD s = false → splitDD s = [s]
  | [], _ => rfl
  | [_], _ => rfl
  | c₁ :: c₂ :: rest, h => by
    simp only [hasDD] at h
    split at h
    · exact absurd h (by simp)
    next hne =>
      simp only [splitDD]
      rw [if_neg hne, splitDD_noDD (c₂ :: rest) h, consHead_cons]

lemma splitDD_append : ∀ a : Str, hasDD a = false → a.getLast? ≠ some '_' →
    ∀ r : Str, splitDD (a ++ '_' :: '_' :: r) = a :: splitDD r
  | [], _, _, r => by simp [splitDD]
  | [c], _, hl, r => by
    have hc : c ≠ '_' := by simpa using hl
    show splitDD (c :: '_' :: '_' :: r) = [c] :: splitDD r
    simp only [splitDD]
    rw [if_neg (by simp [hc])]
    simp [consHead_cons]
  | c₁ :: c₂ :: a', hdd, hl, r => by
    simp only [hasDD] at hdd
    split at hdd
    · exact absurd hdd (by simp)
    next hne =>
      have hl' : (c₂ :: a').getLast? ≠ some '_' := by
        rwa [List.getLast?_cons_cons] at hl
      show splitDD (c₁ :: ((c₂ :: a') ++ '_' :: '_' :: r)) = (c₁ :: c₂ :: a') :: splitDD r
      have hx : (c₂ :: a') ++ '_' :: '_' :: r = c₂ :: (a' ++ '_' :: '_' :: r) := rfl
      rw [hx]
      simp only [splitDD]
      rw [if_neg hne, ← hx, splitDD_append (c₂ :: a') hdd hl' r, consHead_cons]

lemma splitDD_join : ∀ ss : List Str, ss ≠ [] →
    (∀ s ∈ ss, hasDD s = false ∧ s.getLast? ≠ some '_') →
    splitDD (joinWith ('_' :: '_' :: []) ss) = ss
  | [], h, _ => absurd rfl h
  | [a], _, hc => by
    simp only [joinWith]
    exact splitDD_noDD a (hc a (by simp)).1
  | a :: b :: t, _, hc => by
    have ha := hc a (by simp)
    have hx : a ++ '_' :: '_' :: [] ++ joinWith ('_' :: '_' :: []) (b :: t) =
        a ++ '_' :: '_' :: joinWith ('_' :: '_' :: []) (b :: t) := by simp
    simp only [joinWith]
    rw [hx, splitDD_append a ha.1 ha.2 _,
      splitDD_join (b :: t) (by simp) (fun s hs => hc s (List.mem_cons_of_mem a hs))]

/-! ### Lemmas about stripping and line splitting -/

lemma head?_dropWhile_ne (c : Char) : ∀ l : Str, ∀ a : Char,
    (l.dropWhile (· = c)).head? = some a → a ≠ c := by
  intro l
  induction l with
  | nil => intro a h; simp at h
  | cons x t ih =>
    intro a h
    by_cases hx : x = c
    · rw [List.dropWhile_cons_of_pos (by simp [hx])] at h
      exact ih a h
    · rw [List.dropWhile_cons_of_neg (by simp [hx])] at h
      simp only [List.head?_cons, Option.some.injEq] at h
      rw [← h]
      exact hx

lemma pyRstrip_getLast_ne (c : Char) (s : Str) :
    (pyRstrip c s).getLast? ≠ some c := by
  unfold pyRstrip
  rw [List.getLast?_reverse]
  intro h
  exact head?_dropWhile_ne c s.reverse c h rfl

lemma pyRstrip_eq_self (c : Char) (s : Str) (h : s.getLast? ≠ some c) :
    pyRstrip c s = s := by
  unfold pyRstrip
  cases hr : s.reverse with
  | nil =>
    have : s = [] := by simpa using congrArg List.reverse hr
    simp [this]
  | cons a t =>
    have ha : a ≠ c := by
      have hh : s.getLast? = some a := by
        rw [← List.head?_reverse, hr, List.head?_cons]
      intro e
      exact h (e ▸ hh)
    rw [List.dropWhile_cons_of_neg (by simp [ha]), ← hr, List.reverse_reverse]

lemma pyRstrip_decomp (c : Char) (s : Str) :
    ∃ n, s = pyRstrip c s ++ List.replicate n c := by
  refine ⟨(s.reverse.takeWhile (· = c)).length, ?_⟩
  have ht : s.reverse.takeWhile (· = c) =
      List.replicate (s.reverse.takeWhile (· = c)).length c :=
    List.eq_replicate_of_mem (fun b hb =>
      of_decide_eq_true (List.mem_takeWhile_imp (p := fun x => decide (x = c)) hb))
  calc s = (s.reverse.takeWhile (· = c) ++ s.reverse.dropWhile (· = c)).reverse := by
        rw [List.takeWhile_append_dropWhile, List.reverse_reverse]
    _ = pyRstrip c s ++ (s.reverse.takeWhile (· = c)).reverse := by
        rw [List.reverse_append]; rfl
    _ = pyRstrip c s ++ List.replicate (s.reverse.takeWhile (· = c)).length c := by
        rw [ht, List.reverse_replicate]
        simp

lemma pyRstrip_all (c : Char) (s : Str) (h : ∀ x ∈ s, x = c) :
    pyRstrip c s = [] := by
  unfold pyRstrip
  have hd : s.reverse.dropWhile (· = c) = [] := by
    rw [List.dropWhile_eq_nil_iff]
    intro x hx
    simp [h x (List.mem_reverse.mp hx)]
  simp [hd]

lemma pyRstrip_append_same (c : Char) (s : Str) :
    pyRstrip c (s ++ [c]) = pyRstrip c s := by
  unfold pyRstrip
  rw [List.reverse_append]
  simp

lemma pyStrip_append_same (c : Char) (s : Str) :
    pyStrip c (s ++ [c]) = pyStrip c s := by
  unfold pyStrip
  rw [pyRstrip_append_same]

lemma pyLines_cons (c : Char) (rest : Str) :
    pyLines (c :: rest) =
      if c = '\n' then ['\n'] :: pyLines rest else consHead c (pyLines rest) := rfl

lemma pyLines_ne_nil : ∀ s : Str, s ≠ [] → pyLines s ≠ []
  | c :: rest, _ => by
    simp only [pyLines]
    split
    · simp
    · cases h : pyLines rest with
      | nil => simp [consHead]
      | cons a t => simp [consHead]

lemma pyLines_append_nl : ∀ s : Str, s ≠ [] → s.getLast? ≠ some '\n' →
    ∃ ls l, pyLines s = ls ++ [l] ∧ pyLines (s ++ ['\n']) = ls ++ [l ++ ['\n']]
  | [], h, _ => absurd rfl h
  | [c], _, hl => by
    have hc : c ≠ '\n' := by simpa using hl
    refine ⟨[], [c], ?_, ?_⟩
    · simp [pyLines, hc, consHead]
    · show pyLines [c, '\n'] = [] ++ [[c, '\n']]
      simp [pyLines, hc, consHead]
  | c :: d :: rest, _, hl => by
    have hl' : (d :: rest).getLast? ≠ some '\n' := by
      rwa [List.getLast?_cons_cons] at hl
    obtain ⟨ls, l, h1, h2⟩ := pyLines_append_nl (d :: rest) (by simp) hl'
    by_cases hc : c = '\n'
    · subst hc
      refine ⟨['\n'] :: ls, l, ?_, ?_⟩
      · show pyLines ('\n' :: d :: rest) = (['\n'] :: ls) ++ [l]
        rw [pyLines_cons, if_pos rfl, h1]
        rfl
      · show pyLines ('\n' :: ((d :: rest) ++ ['\n'])) = (['\n'] :: ls) ++ [l ++ ['\n']]
        rw [pyLines_cons, if_pos rfl, h2]
        rfl
    · cases ls with
      | nil =>
        simp only [List.nil_append] at h1 h2
        refine ⟨[], c :: l, ?_, ?_⟩
        · show pyLines (c :: d :: rest) = [] ++ [c :: l]
          rw [pyLines_cons, if_neg hc, h1]
          rfl
        · show pyLines (c :: ((d :: rest) ++ ['\n'])) = [] ++ [(c :: l) ++ ['\n']]
          rw [pyLines_cons, if_neg hc, h2]
          rfl
      | cons h0 ls' =>
        refine ⟨(c :: h0) :: ls', l, ?_, ?_⟩
        · show pyLines (c :: d :: rest) = ((c :: h0) :: ls') ++ [l]
          rw [pyLines_cons, if_neg hc, h1]
          rfl
        · show pyLines (c :: ((d :: rest) ++ ['\n'])) = ((c :: h0) :: ls') ++ [l ++ ['\n']]
          rw [pyLines_cons, if_neg hc, h2]
          rfl

/-! ### Lemmas about the dictionary model -/

lemma aGet_aSet_self {α : Type} : ∀ (m : List (Str × α)) (k : Str) (v : α),
    aGet (aSet m k v) k = some v
  | [], k, v => by simp [aGet, aSet]
  | (k0, w) :: rest, k, v => by
    by_cases h : k0 = k
    · simp [aSet, aGet, h]
    · simp [aSet, aGet, h, aGet_aSet_self rest k v]

lemma aSet_of_none {α : Type} : ∀ (m : List (Str × α)) (k : Str) (v : α),
    aGet m k = none → aSet m k v = m ++ [(k, v)]
  | [], k, v, _ => rfl
  | (k0, w) :: rest, k, v, h => by
    simp only [aGet] at h
    by_cases hk : k0 = k
    · rw [if_pos hk] at h
      exact absurd h (by simp)
    · rw [if_neg hk] at h
      simp [aSet, hk, aSet_of_none rest k v h]

lemma aGet_append_some {α : Type} : ∀ (m l : List (Str × α)) (k : Str) (d : α),
    aGet m k = some d → aGet (m ++ l) k = some d
  | [], _, _, _, h => by simp [aGet] at h
  | (k0, w) :: rest, l, k, d, h => by
    simp only [aGet] at h ⊢
    by_cases hk : k0 = k
    · rw [if_pos hk] at h ⊢
      exact h
    · rw [if_neg hk] at h ⊢
      exact aGet_append_some rest l k d h

lemma aGet_append_none {α : Type} : ∀ (m : List (Str × α)) (k s : Str) (v : α),
    aGet m s = none →
    aGet (m ++ [(k, v)]) s = if k = s then some v else none
  | [], k, s, v, _ => by simp [aGet]
  | (k0, w) :: rest, k, s, v, h => by
    simp only [aGet] at h ⊢
    by_cases hk : k0 = s
    · rw [if_pos hk] at h
      exact absurd h (by simp)
    · rw [if_neg hk] at h ⊢
      exact aGet_append_none rest k s v h

lemma aGet_ddGet_fst (idx : Index) (s a : Str) :
    aGet (ddGet idx s).1 a = aGet2 idx s a := by
  unfold ddGet aGet2
  cases h : aGet idx s <;> simp [aGet]

lemma ddGet_snd_of_some (idx : Index) (s : Str) (h : (aGet idx s).isSome) :
    (ddGet idx s).2 = idx := by
  unfold ddGet
  cases hh : aGet idx s with
  | none => rw [hh] at h; simp at h
  | some d => simp

lemma ddGet_snd_of_none (idx : Index) (s : Str) (h : aGet idx s = none) :
    (ddGet idx s).2 = idx ++ [(s, [])] := by
  unfold ddGet
  rw [h]
  exact aSet_of_none idx s [] h

lemma aGet2_ddSetIn_self (idx : Index) (s a v : Str) :
    aGet2 (ddSetIn idx s a v) s a = some v := by
  unfold ddSetIn aGet2
  rw [aGet_aSet_self]
  exact aGet_aSet_self _ a v

/-! ### Lemmas about the read_clusters loop -/

lemma rcStep_header (st : RCState) (raw : Str)
    (h : (pyStrip '\n' raw).head? = some '>') :
    rcStep st raw = .ok ⟨some (lastTok (pyStrip '\n' raw)), st.idx⟩ := by
  simp [rcStep, rcStepCore, h]

lemma rcStep_member (st st' : RCState) (raw : Str)
    (h : (pyStrip '\n' raw).head? ≠ some '>')
    (hok : rcStep st raw = .ok st') :
    ∃ cid sa, st.cur = some cid ∧
      parseMember (pyStrip '\n' raw) = .ok sa ∧
      st' = ⟨some cid, ddSetIn st.idx sa.1 sa.2 cid⟩ := by
  unfold rcStep rcStepCore at hok
  rw [if_neg h] at hok
  cases hp : parseMember (pyStrip '\n' raw) with
  | error e =>
    rw [hp] at hok
    exact absurd hok (by simp)
  | ok sa =>
    rw [hp] at hok
    cases hc : st.cur with
    | none =>
      rw [hc] at hok
      exact absurd hok (by simp)
    | some cid =>
      rw [hc] at hok
      simp only [Except.ok.injEq] at hok
      exact ⟨cid, sa, rfl, rfl, hok.symm⟩

lemma runRC_cur : ∀ (lines : List Str) (st st' : RCState),
    runRC st lines = .ok st' → st'.cur = lines.foldl stepCur st.cur
  | [], st, st', h => by
    simp only [runRC, Except.ok.injEq] at h
    rw [← h]
    rfl
  | l :: ls, st, st', h => by
    unfold runRC at h
    cases hs : rcStep st l with
    | error e =>
      rw [hs] at h
      exact absurd h (by simp)
    | ok st₁ =>
      rw [hs] at h
      have ih := runRC_cur ls st₁ st' h
      rw [List.foldl_cons, ih]
      congr 1
      by_cases hh : (pyStrip '\n' l).head? = some '>'
      · rw [rcStep_header st l hh] at hs
        simp only [Except.ok.injEq] at hs
        rw [← hs]
        simp [stepCur, hh]
      · obtain ⟨cid, sa, hcur, hp, hst⟩ := rcStep_member st st₁ l hh hs
        rw [hst]
        simp [stepCur, hh, hcur]

lemma runRC_append (xs : List Str) (y : Str) : ∀ st : RCState,
    runRC st (xs ++ [y]) = (runRC st xs).bind (fun s => rcStep s y) := by
  induction xs with
  | nil =>
    intro st
    show runRC st [y] = (Except.ok st).bind (fun s => rcStep s y)
    cases h : rcStep st y <;> simp [runRC, h, Except.bind]
  | cons x xs ih =>
    intro st
    show runRC st (x :: (xs ++ [y])) = _
    unfold runRC
    cases h : rcStep st x <;> simp [h, Except.bind, ih]

/-! ### Lemmas about the table rewriter -/


lemma procAllele_variant_found (idx : Index) (sample al cid : Str)
    (hstar : (pyRstrip '?' al).getLast? = some '*')
    (hfind : aGet2 idx sample ((pyRstrip '?' al).dropLast) = some cid) :
    procAllele idx sample al =
      (.ok ((pyRstrip '?' al).dropLast ++ '.' :: cid), (ddGet idx sample).2) := by
  simp only [procAllele, hstar]
  rw [aGet_ddGet_fst, hfind]
  simp

lemma procAllele_variant_missing (idx : Index) (sample al : Str)
    (hstar : (pyRstrip '?' al).getLast? = some '*')
    (hmiss : aGet2 idx sample ((pyRstrip '?' al).dropLast) = none) :
    procAllele idx sample al = (.error .keyError, (ddGet idx sample).2) := by
  simp only [procAllele, hstar]
  rw [aGet_ddGet_fst, hmiss]
  simp

lemma procAllele_empty (idx : Index) (sample al : Str)
    (h : pyRstrip '?' al = []) :
    procAllele idx sample al = (.error .emptyAllele, idx) := by
  simp only [procAllele, h]
  rfl

lemma procAllele_plain (idx : Index) (sample f : Str) (hne : f ≠ [])
    (hq : f.getLast? ≠ some '?') (hs : f.getLast? ≠ some '*') :
    procAllele idx sample f = (.ok f, idx) := by
  have h1 : pyRstrip '?' f = f := pyRstrip_eq_self '?' f hq
  obtain ⟨c, hl⟩ := Option.isSome_iff_exists.mp (List.getLast?_isSome.mpr hne)
  have hc : c ≠ '*' := fun e => hs (e ▸ hl)
  simp only [procAllele, h1, hl]
  simp [hc]

lemma procFields_plain (idx : Index) (sample : Str) : ∀ flds : List Str,
    (∀ f ∈ flds, f ≠ [] ∧ f.getLast? ≠ some '?' ∧ f.getLast? ≠ some '*') →
    procFields idx sample flds = (.ok flds, idx)
  | [], _ => rfl
  | f :: fs, h => by
    have hf := h f (by simp)
    have hrec := procFields_plain idx sample fs
      (fun g hg => h g (List.mem_cons_of_mem f hg))
    unfold procFields
    rw [procAllele_plain idx sample f hf.1 hf.2.1 hf.2.2]
    show (match procFields idx sample fs with
      | (Except.error e, i) => (Except.error e, i)
      | (Except.ok as, i) => (Except.ok (f :: as), i)) = (Except.ok (f :: fs), idx)
    rw [hrec]

lemma procFields_prefix_err (sample : Str) : ∀ (fpre : List Str)
    (idx idx₁ idx₂ : Index) (outs : List Str) (bad : Str) (rest : List Str)
    (e : TWErr),
    procFields idx sample fpre = (.ok outs, idx₁) →
    procAllele idx₁ sample bad = (.error e, idx₂) →
    procFields idx sample (fpre ++ bad :: rest) = (.error e, idx₂)
  | [], idx, idx₁, idx₂, outs, bad, rest, e, h1, h2 => by
    simp only [procFields, Prod.mk.injEq] at h1
    have hi : idx = idx₁ := h1.2
    subst hi
    show procFields idx sample (bad :: rest) = (.error e, idx₂)
    unfold procFields
    rw [h2]
  | al :: fs, idx, idx₁, idx₂, outs, bad, rest, e, h1, h2 => by
    unfold procFields at h1
    rcases hpa : procAllele idx sample al with ⟨r, idxa⟩
    rw [hpa] at h1
    cases r with
    | error e' => exact absurd h1 (by simp)
    | ok a =>
      change (match procFields idxa sample fs with
        | (Except.error e', i) => (Except.error e', i)
        | (Except.ok as, i) => (Except.ok (a :: as), i)) = (Except.ok outs, idx₁) at h1
      rcases hpf : procFields idxa sample fs with ⟨r2, idxb⟩
      rw [hpf] at h1
      cases r2 with
      | error e' => exact absurd h1 (by simp)
      | ok as =>
        change (Except.ok (a :: as), idxb) = (Except.ok outs, idx₁) at h1
        simp only [Prod.mk.injEq, Except.ok.injEq] at h1
        have h2' : procAllele idxb sample bad = (.error e, idx₂) := by
          rw [h1.2]
          exact h2
        have ih := procFields_prefix_err sample fs idxa idxb idx₂ as bad rest e hpf h2'
        show procFields idx sample (al :: (fs ++ bad :: rest)) = (.error e, idx₂)
        unfold procFields
        rw [hpa]
        show (match procFields idxa sample (fs ++ bad :: rest) with
          | (Except.error e', i) => (Except.error e', i)
          | (Except.ok as', i) => (Except.ok (a :: as'), i)) = (Except.error e, idx₂)
        rw [ih]

lemma procRows_prefix_err : ∀ (pre : List Str) (idx idx₁ idx₂ : Index)
    (outs : List Str) (bad : Str) (post : List Str) (e : TWErr),
    procRows idx pre = ⟨outs, none, idx₁⟩ →
    procRow idx₁ bad = (.error e, idx₂) →
    procRows idx (pre ++ bad :: post) = ⟨outs, some e, idx₂⟩
  | [], idx, idx₁, idx₂, outs, bad, post, e, h1, h2 => by
    simp only [procRows, TWResult.mk.injEq] at h1
    obtain ⟨ho, _, hi⟩ := h1
    subst hi
    show procRows idx (bad :: post) = ⟨outs, some e, idx₂⟩
    unfold procRows
    rw [h2, ← ho]
  | r :: rs, idx, idx₁, idx₂, outs, bad, post, e, h1, h2 => by
    unfold procRows at h1
    rcases hpr : procRow idx r with ⟨res, idxa⟩
    rw [hpr] at h1
    cases res with
    | error e' => exact absurd h1 (by simp)
    | ok line =>
      change (⟨line :: (procRows idxa rs).out, (procRows idxa rs).err,
        (procRows idxa rs).idx⟩ : TWResult) = ⟨outs, none, idx₁⟩ at h1
      simp only [TWResult.mk.injEq] at h1
      obtain ⟨ho, he, hi⟩ := h1
      have hpre : procRows idxa rs = ⟨(procRows idxa rs).out, none, idx₁⟩ := by
        rw [← he, ← hi]
      have ih := procRows_prefix_err rs idxa idx₁ idx₂ (procRows idxa rs).out
        bad post e hpre h2
      show procRows idx (r :: (rs ++ bad :: post)) = ⟨outs, some e, idx₂⟩
      unfold procRows
      rw [hpr]
      show (⟨line :: (procRows idxa (rs ++ bad :: post)).out,
        (procRows idxa (rs ++ bad :: post)).err,
        (procRows idxa (rs ++ bad :: post)).idx⟩ : TWResult) = ⟨outs, some e, idx₂⟩
      rw [ih]
      simp only [TWResult.mk.injEq]
      exact ⟨ho, trivial, trivial⟩

/-! ### Lemmas about space-splitting and the last token of a header line -/

lemma splitOn1_cons (sep c : Char) (rest : Str) :
    splitOn1 sep (c :: rest) =
      if c = sep then [] :: splitOn1 sep rest
      else consHead c (splitOn1 sep rest) := rfl

lemma splitOn1_no_sep (sep : Char) : ∀ s : Str, (∀ x ∈ s, x ≠ sep) →
    splitOn1 sep s = [s]
  | [], _ => rfl
  | c :: rest, h => by
    rw [splitOn1_cons, if_neg (h c (by simp)),
      splitOn1_no_sep sep rest (fun x hx => h x (List.mem_cons_of_mem c hx)),
      consHead_cons]

lemma splitOn1_append_length (sep : Char) : ∀ a b : Str,
    2 ≤ (splitOn1 sep (a ++ sep :: b)).length
  | [], b => by
    show 2 ≤ (splitOn1 sep (sep :: b)).length
    rw [splitOn1_cons, if_pos rfl]
    cases h : splitOn1 sep b with
    | nil => exact absurd h (splitOn1_ne_nil sep b)
    | cons x t => simp
  | c :: a', b => by
    show 2 ≤ (splitOn1 sep (c :: (a' ++ sep :: b))).length
    rw [splitOn1_cons]
    have ih := splitOn1_append_length sep a' b
    by_cases hc : c = sep
    · rw [if_pos hc]
      cases h : splitOn1 sep (a' ++ sep :: b) with
      | nil => exact absurd h (splitOn1_ne_nil sep _)
      | cons x t => simp
    · rw [if_neg hc]
      cases h : splitOn1 sep (a' ++ sep :: b) with
      | nil => exact absurd h (splitOn1_ne_nil sep _)
      | cons x t =>
        rw [h] at ih
        rw [consHead_cons]
        simpa using ih

lemma getLastD_consHead (c : Char) : ∀ l : List Str, 2 ≤ l.length →
    (consHead c l).getLastD [] = l.getLastD []
  | [], h => by simp at h
  | [_], h => by simp at h
  | _ :: _ :: _, _ => by
    rw [consHead_cons]
    simp [List.getLastD_cons]

lemma getLastD_splitOn1_append (sep : Char) : ∀ a b : Str,
    (splitOn1 sep (a ++ sep :: b)).getLastD [] = (splitOn1 sep b).getLastD []
  | [], b => by
    show (splitOn1 sep (sep :: b)).getLastD [] = (splitOn1 sep b).getLastD []
    rw [splitOn1_cons, if_pos rfl, List.getLastD_cons]
  | c :: a', b => by
    show (splitOn1 sep (c :: (a' ++ sep :: b))).getLastD [] =
      (splitOn1 sep b).getLastD []
    rw [splitOn1_cons]
    have ih := getLastD_splitOn1_append sep a' b
    by_cases hc : c = sep
    · rw [if_pos hc, List.getLastD_cons]
      exact ih
    · rw [if_neg hc, getLastD_consHead c _ (splitOn1_append_length sep a' b)]
      exact ih

lemma lastTok_last_space (p t : Str) (ht : ∀ x ∈ t, x ≠ ' ') :
    lastTok (p ++ ' ' :: t) = t := by
  unfold lastTok
  rw [getLastD_splitOn1_append ' ' p t, splitOn1_no_sep ' ' t ht]
  rfl

/-! ### Claim theorems -/

/-- C1: for every allele-call field whose value, after stripping the trailing
uncertainty markers, ends with the variant marker `*`, the rewriter removes
the marker and replaces the field by the allele name, a period, and the
cluster identifier found at `index[sample][name]`; the index is unchanged. -/
theorem c1_variant_rewrite (idx : Index) (sample al cid : Str)
    (hstar : (pyRstrip '?' al).getLast? = some '*')
    (hfind : aGet2 idx sample ((pyRstrip '?' al).dropLast) = some cid) :
    procAllele idx sample al =
      (.ok ((pyRstrip '?' al).dropLast ++ '.' :: cid), idx) := by
  have hsome : (aGet idx sample).isSome := by
    unfold aGet2 at hfind
    cases h : aGet idx sample with
    | none =>
      rw [h] at hfind
      simp at hfind
    | some d => simp
  rw [procAllele_variant_found idx sample al cid hstar hfind,
    ddGet_snd_of_some idx sample hsome]

/-- C1 witness: field `Aac6-Iaa_760*?` for sample `sampleX` with
`index[sampleX]["Aac6-Iaa_760"] = "140"` rewrites to `Aac6-Iaa_760.140`. -/
theorem c1_variant_rewrite_witness :
    procAllele [("sampleX".data, [("Aac6-Iaa_760".data, "140".data)])]
      ("sampleX".data) ("Aac6-Iaa_760*?".data) =
      (.ok ("Aac6-Iaa_760.140".data),
        [("sampleX".data, [("Aac6-Iaa_760".data, "140".data)])]) := by
  have h := c1_variant_rewrite
    [("sampleX".data, [("Aac6-Iaa_760".data, "140".data)])]
    ("sampleX".data) ("Aac6-Iaa_760*?".data) ("140".data)
    (by decide) (by decide)
  exact h

/-- C2 counterexample: the rewriter strips EVERY trailing `?`, not exactly
one: `TetB??` becomes `TetB`, not `TetB?` as the claim states. -/
theorem c2_strip_counterexample :
    pyRstrip '?' ("TetB??".data) = "TetB".data ∧
    pyRstrip '?' ("TetB??".data) ≠ "TetB?".data := by
  constructor
  · rfl
  · decide

/-- C2 amended: the rewriter strips all trailing `?` characters from an
allele-call field (the result never ends in `?`, and the input is the result
followed by some number of `?`); stripping a field with no trailing `?` is a
no-op. -/
theorem c2_strip_all_trailing (s : Str) :
    (s.getLast? ≠ some '?' → pyRstrip '?' s = s) ∧
    (pyRstrip '?' s).getLast? ≠ some '?' ∧
    ∃ n, s = pyRstrip '?' s ++ List.replicate n '?' :=
  ⟨pyRstrip_eq_self '?' s, pyRstrip_getLast_ne '?' s, pyRstrip_decomp '?' s⟩

/-- C2 amended witness at the field `TetB`. -/
theorem c2_strip_all_trailing_witness :
    pyRstrip '?' ("TetB".data) = "TetB".data ∧
    (pyRstrip '?' ("TetB".data)).getLast? ≠ some '?' :=
  ⟨(c2_strip_all_trailing ("TetB".data)).1 (by decide),
   (c2_strip_all_trailing ("TetB".data)).2.1⟩

/-- C3: the allele-name conversion splits the identifier on `__`, keeps the
last two segments and joins them with `_` (stated for every identifier built
from double-underscore-free segments not ending in `_`). -/
theorem c3_get_alleleID_last_two (front : List Str) (a b : Str)
    (hseg : ∀ s ∈ front ++ [a, b], hasDD s = false ∧ s.getLast? ≠ some '_') :
    get_alleleID (joinWith ('_' :: '_' :: []) (front ++ [a, b])) =
      a ++ '_' :: b := by
  simp only [get_alleleID]
  rw [splitDD_join (front ++ [a, b]) (by simp) hseg]
  have hlen : (front ++ [a, b]).length = front.length + 2 := by simp
  have hdrop : (front ++ [a, b]).drop ((front ++ [a, b]).length - 2) = [a, b] := by
    rw [hlen]
    show (front ++ [a, b]).drop front.length = [a, b]
    exact List.drop_left front [a, b]
  rw [hdrop]
  simp [joinWith]

/-- C3 witness: identifier `66__FloR_Phe__FloR__1212` yields `FloR_1212`. -/
theorem c3_get_alleleID_witness :
    get_alleleID ("66__FloR_Phe__FloR__1212".data) = "FloR_1212".data := by
  have h := c3_get_alleleID_last_two ["66".data, "FloR_Phe".data]
    ("FloR".data) ("1212".data) (by decide)
  exact h

/-- C4: in the cluster-report parse, a successfully processed member line is
recorded under the cluster identifier of the most recently preceding header
line, and the current cluster identifier is unchanged by member lines (it is
reassigned only at header lines). -/
theorem c4_member_line_assoc (pref : List Str) (ln : Str) (st st' : RCState)
    (h1 : runRC ⟨none, []⟩ pref = .ok st)
    (h2 : (pyStrip '\n' ln).head? ≠ some '>')
    (h3 : rcStep st ln = .ok st') :
    st'.cur = st.cur ∧
    ∃ cid sa, lastHeaderId pref = some cid ∧
      parseMember (pyStrip '\n' ln) = .ok sa ∧
      aGet2 st'.idx sa.1 sa.2 = some cid := by
  obtain ⟨cid, sa, hcur, hp, hst⟩ := rcStep_member st st' ln h2 h3
  have hc : st.cur = pref.foldl stepCur none := runRC_cur pref ⟨none, []⟩ st h1
  refine ⟨?_, cid, sa, ?_, hp, ?_⟩
  · rw [hst, hcur]
  · show pref.foldl stepCur none = some cid
    rw [← hc]
    exact hcur
  · rw [hst]
    exact aGet2_ddSetIn_self st.idx sa.1 sa.2 cid

/-- C4 witness: after the header `>Cluster 0`, the member line referring to
sequence `52__TetA_Tet__TetA__1545.consensus` of sample `sampleX` is
recorded under cluster identifier `0`. -/
theorem c4_member_line_assoc_witness :
    (⟨some ("0".data),
      [("sampleX".data, [("TetA_1545".data, "0".data)])]⟩ : RCState).cur =
      (⟨some ("0".data), ([] : Index)⟩ : RCState).cur ∧
    ∃ cid sa, lastHeaderId [">Cluster 0".data] = some cid ∧
      parseMember (pyStrip '\n'
        ("0\t9999nt, >52__TetA_Tet__TetA__1545.consensus|sampleX...foo at +/100.00%".data)) =
        .ok sa ∧
      aGet2 (⟨some ("0".data),
        [("sampleX".data, [("TetA_1545".data, "0".data)])]⟩ : RCState).idx
        sa.1 sa.2 = some cid :=
  c4_member_line_assoc [">Cluster 0".data]
    ("0\t9999nt, >52__TetA_Tet__TetA__1545.consensus|sampleX...foo at +/100.00%".data)
    ⟨some ("0".data), []⟩
    ⟨some ("0".data), [("sampleX".data, [("TetA_1545".data, "0".data)])]⟩
    (by decide) (by decide) (by decide)

/-- C5: when a variant-marked allele call whose (sample, allele-name) pair is
absent from the cluster index is met (all earlier rows and the earlier
fields of its row having been processed without failure), the rewriter
aborts with the lookup error: the emitted lines are exactly the header and
the earlier rows, and the row containing the failing field is not emitted. -/
theorem c5_missing_entry_aborts (tbl : Str) (clusters idx₁ idx₂ : Index)
    (hd bad sample badF : Str) (pre post fpre frest fout outs : List Str)
    (hl : pyLines tbl = hd :: (pre ++ bad :: post))
    (hrows : procRows clusters pre = ⟨outs, none, idx₁⟩)
    (hsplit : splitOn1 '\t' (pyRstrip '\n' bad) = sample :: (fpre ++ badF :: frest))
    (hfpre : procFields idx₁ sample fpre = (.ok fout, idx₂))
    (hstar : (pyRstrip '?' badF).getLast? = some '*')
    (hmiss : aGet2 idx₂ sample ((pyRstrip '?' badF).dropLast) = none) :
    assign_clusterIDs tbl clusters =
      ⟨pyStrip '\n' hd :: outs, some .keyError, (ddGet idx₂ sample).2⟩ := by
  have hbadA : procAllele idx₂ sample badF =
      (.error .keyError, (ddGet idx₂ sample).2) :=
    procAllele_variant_missing idx₂ sample badF hstar hmiss
  have hbadF : procFields idx₁ sample (fpre ++ badF :: frest) =
      (.error .keyError, (ddGet idx₂ sample).2) :=
    procFields_prefix_err sample fpre idx₁ idx₂ ((ddGet idx₂ sample).2)
      fout badF frest .keyError hfpre hbadA
  have hbadRow : procRow idx₁ bad = (.error .keyError, (ddGet idx₂ sample).2) := by
    simp only [procRow, hsplit, List.headD_cons, List.tail_cons, hbadF]
  have hfinal : procRows clusters (pre ++ bad :: post) =
      ⟨outs, some .keyError, (ddGet idx₂ sample).2⟩ :=
    procRows_prefix_err pre clusters idx₁ ((ddGet idx₂ sample).2)
      outs bad post .keyError hrows hbadRow
  unfold assign_clusterIDs
  rw [hl]
  show (⟨pyStrip '\n' hd :: (procRows clusters (pre ++ bad :: post)).out,
    (procRows clusters (pre ++ bad :: post)).err,
    (procRows clusters (pre ++ bad :: post)).idx⟩ : TWResult) = _
  rw [hfinal]

/-- C5 witness: with an empty cluster index, the table `H\ns1\tG_7*\n` emits
only the header and aborts with the lookup error on the first data row. -/
theorem c5_missing_entry_aborts_witness :
    assign_clusterIDs ("H\ns1\tG_7*\n".data) [] =
      ⟨["H".data], some .keyError, [("s1".data, [])]⟩ := by
  have h := c5_missing_entry_aborts ("H\ns1\tG_7*\n".data) [] [] []
    ("H\n".data) ("s1\tG_7*\n".data) ("s1".data) ("G_7*".data)
    [] [] [] [] [] []
    (by decide) (by decide) (by decide) (by decide) (by decide) (by decide)
  exact h

lemma procAllele_snd_cases (idx : Index) (sample al : Str) :
    (procAllele idx sample al).2 = idx ∨
    (procAllele idx sample al).2 = (ddGet idx sample).2 := by
  simp only [procAllele]
  cases h : (pyRstrip '?' al).getLast? with
  | none => left; rfl
  | some c =>
    by_cases hc : c = '*'
    · subst hc
      simp only [if_pos rfl]
      cases hg : aGet (ddGet idx sample).1 ((pyRstrip '?' al).dropLast) with
      | none => right; rfl
      | some cid => right; rfl
    · simp only [if_neg hc]
      left
      trivial

/-- C6 counterexample: the cluster index IS mutated after `read_clusters`
returns: rewriting the table `H\ns1\tG_7*\n` against the empty index leaves
an entry for the absent sample `s1` in the index (inserted by the
`defaultdict` access during the failed lookup). -/
theorem c6_mutation_counterexample :
    (assign_clusterIDs ("H\ns1\tG_7*\n".data) []).idx = [("s1".data, [])] ∧
    [(("s1".data : Str), ([] : List (Str × Str)))] ≠ ([] : Index) := by
  constructor
  · rfl
  · decide

/-- C6 amended: during table rewriting no allele-to-cluster mapping is ever
added or changed in the index, and a field whose sample is already present
in the index leaves the index entirely unchanged; only a variant lookup for
an absent sample appends an empty entry for that sample. -/
theorem c6_index_frame (idx : Index) (sample al : Str) :
    ((aGet idx sample).isSome → (procAllele idx sample al).2 = idx) ∧
    (∀ s a, aGet2 ((procAllele idx sample al).2) s a = aGet2 idx s a) := by
  constructor
  · intro hs
    rcases procAllele_snd_cases idx sample al with h | h
    · exact h
    · rw [h, ddGet_snd_of_some idx sample hs]
  · intro s a
    rcases procAllele_snd_cases idx sample al with h | h
    · rw [h]
    · rw [h]
      cases hg : aGet idx sample with
      | some d =>
        rw [ddGet_snd_of_some idx sample (by rw [hg]; rfl)]
      | none =>
        rw [ddGet_snd_of_none idx sample hg]
        unfold aGet2
        cases hgs : aGet idx s with
        | some d => rw [aGet_append_some idx [(sample, [])] s d hgs]
        | none =>
          rw [aGet_append_none idx sample s [] hgs]
          by_cases he : sample = s
          · rw [if_pos he]
            simp [aGet]
          · rw [if_neg he]

/-- C6 amended witness: for the index holding only sample `s1`, processing
the variant field `X_1*` leaves the index unchanged. -/
theorem c6_index_frame_witness :
    (procAllele [("s1".data, [])] ("s1".data) ("X_1*".data)).2 =
      [("s1".data, [])] ∧
    aGet2 ((procAllele [("s1".data, [])] ("s1".data) ("X_1*".data)).2)
      ("s1".data) ("X_1".data) =
      aGet2 [("s1".data, [])] ("s1".data) ("X_1".data) :=
  ⟨(c6_index_frame [("s1".data, [])] ("s1".data) ("X_1*".data)).1 (by decide),
   (c6_index_frame [("s1".data, [])] ("s1".data) ("X_1*".data)).2
     ("s1".data) ("X_1".data)⟩

/-- C7 counterexample: a cluster report that really ends in a blank line
after its last member line makes the builder abort (`re.findall(...)[0]` on
the empty stripped line raises), instead of producing no record; only the
report without the blank line parses. -/
theorem c7_blank_line_counterexample :
    read_clusters (">C 0\n0 >a__b.consensus|s...x\n".data) =
      .ok [("s".data, [("a_b".data, "0".data)])] ∧
    read_clusters (">C 0\n0 >a__b.consensus|s...x\n\n".data) =
      .error .noSeqId := by
  constructor
  · rfl
  · rfl

/-- C7 amended: the harmless case is the final newline terminating the last
member line: a report whose content does not end in a newline yields exactly
the same result when a single trailing newline is appended (the file
iteration produces no extra line for it); a genuinely blank extra line,
however, is parsed as a member line and aborts the run. -/
theorem c7_trailing_newline (c : Str) (h1 : c ≠ [])
    (h2 : c.getLast? ≠ some '\n') :
    read_clusters (c ++ ['\n']) = read_clusters c := by
  obtain ⟨ls, l, e1, e2⟩ := pyLines_append_nl c h1 h2
  unfold read_clusters
  rw [e1, e2, runRC_append, runRC_append]
  have hs : ∀ s, rcStep s (l ++ ['\n']) = rcStep s l := fun s => by
    unfold rcStep
    rw [pyStrip_append_same]
  cases hr : runRC ⟨none, []⟩ ls <;> simp [Except.bind, hs]

/-- C7 amended witness at a two-line report without a final newline. -/
theorem c7_trailing_newline_witness :
    read_clusters ((">C 0\n0 >a__b.consensus|s...x".data) ++ ['\n']) =
      read_clusters (">C 0\n0 >a__b.consensus|s...x".data) :=
  c7_trailing_newline (">C 0\n0 >a__b.consensus|s...x".data)
    (by decide) (by decide)

/-- C8 counterexample: the header parser splits on the space character only,
not on arbitrary whitespace: for the header line `>Cluster\t7` (tab
separated) the recorded identifier is the whole line, not the last
whitespace-separated token `7`. -/
theorem c8_tab_header_counterexample :
    rcStep ⟨none, []⟩ (">Cluster\t7".data) =
      .ok ⟨some (">Cluster\t7".data), []⟩ ∧
    (">Cluster\t7".data : Str) ≠ "7".data := by
  constructor
  · rfl
  · decide

/-- C8 amended: for a header line written as a prefix, a space character and
a final space-free token, the new current cluster identifier is that final
token (the last token after splitting on the space character only). -/
theorem c8_header_last_space_token (st : RCState) (p t : Str)
    (hp : p.head? = some '>') (ht : ∀ x ∈ t, x ≠ ' ') :
    rcStepCore st (p ++ ' ' :: t) = .ok ⟨some t, st.idx⟩ := by
  have hh : (p ++ ' ' :: t).head? = some '>' := by
    cases p with
    | nil => simp at hp
    | cons a p' => simpa using hp
  unfold rcStepCore
  rw [if_pos hh, lastTok_last_space p t ht]

/-- C8 amended witness: the header `>Cluster 0` installs identifier `0`. -/
theorem c8_header_last_space_token_witness :
    rcStepCore ⟨none, []⟩ (">Cluster 0".data) = .ok ⟨some ("0".data), []⟩ := by
  have h := c8_header_last_space_token ⟨none, []⟩ (">Cluster".data) ("0".data)
    (by decide) (by decide)
  exact h

/-- C9 counterexample: the round trip fails on a row with an empty allele
field: in the row `s1\t` every allele-call field ends with neither `?` nor
`*` (the only field is empty), yet the row is not emitted unchanged — the
rewriter aborts with the index error of `allele[-1]` on the empty string. -/
theorem c9_roundtrip_counterexample :
    (∀ f ∈ (splitOn1 '\t' (pyRstrip '\n' ("s1\t".data))).tail,
      f.getLast? ≠ some '?' ∧ f.getLast? ≠ some '*') ∧
    procRow [] ("s1\t".data) ≠ (.ok (pyRstrip '\n' ("s1\t".data)), []) ∧
    (procRow [] ("s1\t".data)).1 = .error .emptyAllele := by
  refine ⟨by decide, by decide, rfl⟩

/-- C9 amended: a data row all of whose allele-call fields are nonempty and
end with neither the uncertainty marker `?` nor the variant marker `*` is
emitted unchanged up to tab-rejoining (the output line is the
newline-stripped input row), with the index untouched. -/
theorem c9_roundtrip_no_markers (idx : Index) (r sample : Str)
    (flds : List Str)
    (hsplit : splitOn1 '\t' (pyRstrip '\n' r) = sample :: flds)
    (hf : ∀ f ∈ flds, f ≠ [] ∧ f.getLast? ≠ some '?' ∧ f.getLast? ≠ some '*') :
    procRow idx r = (.ok (pyRstrip '\n' r), idx) := by
  have h1 : procFields idx sample flds = (.ok flds, idx) :=
    procFields_plain idx sample flds hf
  simp only [procRow, hsplit, List.headD_cons, List.tail_cons, h1]
  rw [← hsplit, joinWith_splitOn1]

/-- C9 amended witness: the marker-free row `s1\tTetB\tFloR_2` is emitted
unchanged. -/
theorem c9_roundtrip_no_markers_witness :
    procRow [] ("s1\tTetB\tFloR_2".data) =
      (.ok ("s1\tTetB\tFloR_2".data), []) := by
  have h := c9_roundtrip_no_markers [] ("s1\tTetB\tFloR_2".data) ("s1".data)
    ["TetB".data, "FloR_2".data] (by decide) (by decide)
  exact h

/-- C10: an allele-call field that is empty or consists only of `?`
characters is empty after uncertainty stripping, so the variant check
indexes the last character of an empty string: the row aborts with the
index error instead of passing the field through (stated with the fields
before it processed successfully). -/
theorem c10_empty_field_aborts (idx idx₁ : Index) (r sample f : Str)
    (fpre frest fout : List Str)
    (hsplit : splitOn1 '\t' (pyRstrip '\n' r) = sample :: (fpre ++ f :: frest))
    (hfpre : procFields idx sample fpre = (.ok fout, idx₁))
    (hf : ∀ c ∈ f, c = '?') :
    procRow idx r = (.error .emptyAllele, idx₁) := by
  have hempty : pyRstrip '?' f = [] := pyRstrip_all '?' f hf
  have hb : procAllele idx₁ sample f = (.error .emptyAllele, idx₁) :=
    procAllele_empty idx₁ sample f hempty
  have hFields : procFields idx sample (fpre ++ f :: frest) =
      (.error .emptyAllele, idx₁) :=
    procFields_prefix_err sample fpre idx idx₁ idx₁ fout f frest
      .emptyAllele hfpre hb
  simp only [procRow, hsplit, List.headD_cons, List.tail_cons, hFields]

/-- C10 witness: the row `s1\tTetB\t??` aborts with the index error. -/
theorem c10_empty_field_aborts_witness :
    procRow [] ("s1\tTetB\t??".data) = (.error .emptyAllele, []) := by
  have h := c10_empty_field_aborts [] [] ("s1\tTetB\t??".data) ("s1".data)
    ("??".data) ["TetB".data] [] ["TetB".data]
    (by decide) (by decide) (by decide)
  exact h
